import Mathlib

/-!
Shallow embedding of the pod-reaper reconciliation core (main.go).

The two reconciliation algorithms — `reapPods` (pod-lifetime reaping with a
bounded per-tick reap budget plus evicted-pod cleanup) and `reapNodes`
(node-age taint application with fleet aggregation) — are translated from the
Go source.  External collaborators (the Kubernetes client, the standard
library's duration parser, the wall clock) are modelled as an `Env` record of
pure functions: the parser returns the (value, error-flag) pair exactly as
`time.ParseDuration` does, and each mutation call's success or failure is a
function of its arguments.  Durations and timestamps are `Int` nanosecond
counts, matching Go's `time.Duration`/`time.Time` arithmetic at the
granularity the source uses.  Go's `panic` is modelled as a distinguished
abort outcome.  Issued cluster mutation calls are recorded as a trace of
`Action`s in source order.
-/

namespace PodReaper

/-- The fixed annotation key `pod.kubernetes.io/lifetime` (constant
`lifetimeAnnotation` in main.go; renamed here). -/
def lifetimeKey : String := "pod.kubernetes.io/lifetime"

/-- The marker searched for in a pod's status reason (main.go line 280). -/
def evictedMarker : String := "Evicted"

/-- A pod, with the fields `reapPods` reads: `v.Namespace`, `v.Name`,
`v.CreationTimestamp`, `v.Annotations`, `v.Status.Reason`.  The annotation
map is an association list with unique keys (a Go map). -/
structure Pod where
  podNamespace : String
  name : String
  creationTimestamp : Int
  annotations : List (String × String)
  statusReason : String
deriving DecidableEq, Repr

/-- A node, with the fields `reapNodes` reads: `node.Name`,
`node.CreationTimestamp`, `node.Labels`. -/
structure Node where
  name : String
  creationTimestamp : Int
  labels : List (String × String)
deriving DecidableEq, Repr

/-- The `NodeGroup` aggregate from main.go. -/
structure NodeGroup where
  Spot : Nat
  Tainted : Nat
  Total : Nat
deriving DecidableEq, Repr

/-- The resolved configuration consumed by `reapPods`
(arguments `maxReaperCount`, `evict`, `reapEvicted`). -/
structure Config where
  maxReaperCount : Int
  evict : Bool
  reapEvicted : Bool
deriving DecidableEq, Repr

/-- The external environment: wall clock (`time.Since` reads it),
`time.ParseDuration` (returns a duration value and an error flag; Go returns
value 0 alongside an error), the cluster's response to each mutation call,
the per-namespace pod list result, the cluster node list result, and the
`NODE_LIFE_TIME` setting.  `Except Unit` models a fallible list call. -/
structure Env where
  now : Int
  parseDuration : String → Int × Bool
  evictSucceeds : String → String → Bool
  deleteSucceeds : String → String → Bool
  podLists : String → Except Unit (List Pod)
  nodesList : Except Unit (List Node)
  nodeLifeTime : String

/-- Go map read `m[key]`, on an association list with unique keys. -/
def lookupKV {β : Type} (key : String) : List (String × β) → Option β
  | [] => none
  | (k, v) :: rest => if k == key then some v else lookupKV key rest

/-- `strings.Contains s pat`. -/
def containsSubstring (s pat : String) : Bool :=
  decide (List.IsInfix pat.data s.data)

/-- A cluster mutation call issued by the pod reconciler, tagged by the
branch that issued it: TTL-path evict (main.go line 260), TTL-path delete
(line 266), evicted-pod cleanup delete (line 282).  Each carries the
namespace and pod name passed to the client. -/
inductive Action where
  | ttlEvict (ns name : String)
  | ttlDelete (ns name : String)
  | cleanupDelete (ns name : String)
deriving DecidableEq, Repr

/-- Whether an action is a TTL-path reap call. -/
def Action.isTTL : Action → Bool
  | .ttlEvict _ _ => true
  | .ttlDelete _ _ => true
  | .cleanupDelete _ _ => false

/-- Whether an action is an evicted-pod cleanup delete call. -/
def Action.isCleanup : Action → Bool
  | .cleanupDelete _ _ => true
  | _ => false

/-- The pod name an action targets. -/
def Action.targetName : Action → String
  | .ttlEvict _ n => n
  | .ttlDelete _ n => n
  | .cleanupDelete _ n => n

/-- The two per-namespace counters of `reapPods`
(`podsTracking`, `podsKilled`, Go ints). -/
structure PodState where
  podsTracking : Int
  podsKilled : Int
deriving DecidableEq, Repr

/-- The TTL branch of the per-pod loop body (main.go lines 247–278): if the
lifetime annotation is present, count the pod as tracking; parse its value
(the error is discarded — Go returns 0 on a parse error); a zero value is
only logged; otherwise, if the budget is open and the pod's age exceeds the
declared lifetime, issue an evict or delete per the mode flag, incrementing
`podsKilled` only on success. -/
def ttlStep (env : Env) (cfg : Config) (st : PodState) (p : Pod) :
    PodState × List Action :=
  match lookupKV lifetimeKey p.annotations with
  | none => (st, [])
  | some val =>
    let st := { st with podsTracking := st.podsTracking + 1 }
    let lifetime := (env.parseDuration val).1
    if lifetime = 0 then
      (st, [])
    else if st.podsKilled < cfg.maxReaperCount then
      let currentLifetime := env.now - p.creationTimestamp
      if currentLifetime > lifetime then
        if cfg.evict then
          if env.evictSucceeds p.podNamespace p.name then
            ({ st with podsKilled := st.podsKilled + 1 },
              [.ttlEvict p.podNamespace p.name])
          else (st, [.ttlEvict p.podNamespace p.name])
        else
          if env.deleteSucceeds p.podNamespace p.name then
            ({ st with podsKilled := st.podsKilled + 1 },
              [.ttlDelete p.podNamespace p.name])
          else (st, [.ttlDelete p.podNamespace p.name])
      else (st, [])
    else (st, [])

/-- The evicted-pod cleanup branch of the per-pod loop body (main.go lines
280–288): when the mode is enabled and the status reason contains the
evicted marker, issue a delete; a failure panics (modelled as `.error`,
carrying the call that was issued), a success increments the same
`podsKilled` counter. -/
def cleanupStep (env : Env) (cfg : Config) (st : PodState) (p : Pod) :
    Except (List Action) (PodState × List Action) :=
  if cfg.reapEvicted && containsSubstring p.statusReason evictedMarker then
    if env.deleteSucceeds p.podNamespace p.name then
      .ok ({ st with podsKilled := st.podsKilled + 1 },
        [.cleanupDelete p.podNamespace p.name])
    else .error [.cleanupDelete p.podNamespace p.name]
  else .ok (st, [])

/-- One iteration of the per-pod loop (main.go lines 246–289): the TTL
branch followed by the cleanup branch, concatenating the issued calls.
A cleanup panic aborts, keeping the calls issued so far. -/
def processPod (env : Env) (cfg : Config) (st : PodState) (p : Pod) :
    Except (List Action) (PodState × List Action) :=
  let r1 := ttlStep env cfg st p
  match cleanupStep env cfg r1.1 p with
  | .ok r2 => .ok (r2.1, r1.2 ++ r2.2)
  | .error a => .error (r1.2 ++ a)

/-- Outcome of processing one namespace's pod list: either the final
counters with the trace of issued calls, or a process abort (Go panic). -/
inductive ReapOutcome where
  | ok (st : PodState) (acts : List Action)
  | panicked (acts : List Action)
deriving DecidableEq, Repr

/-- Prepend already-issued calls to an outcome's trace. -/
def ReapOutcome.withActs (pre : List Action) : ReapOutcome → ReapOutcome
  | .ok st acts => .ok st (pre ++ acts)
  | .panicked acts => .panicked (pre ++ acts)

/-- The per-namespace pod loop (main.go lines 246–289). -/
def processPods (env : Env) (cfg : Config) : PodState → List Pod → ReapOutcome
  | st, [] => .ok st []
  | st, p :: ps =>
    match processPod env cfg st p with
    | .ok r => (processPods env cfg r.1 ps).withActs r.2
    | .error acts => .panicked acts

/-- Outcome of one namespace pass: the values pushed to the metrics sink
(`tracking` and `ignored` gauges, `killed` counter increment) together with
the trace of issued calls, or a process abort. -/
inductive NsOutcome where
  | ok (tracking ignored killed : Int) (acts : List Action)
  | panicked (acts : List Action)
deriving DecidableEq, Repr

/-- One iteration of the namespace loop of `reapPods` (main.go lines
236–295): list the namespace's pods — a list error panics (line 239) —
run the per-pod loop from zeroed counters, then publish
`ignoring = len(pods) - podsTracking`, `tracking = podsTracking`, and add
`podsKilled` to the killed counter. -/
def reapNamespacePods (env : Env) (cfg : Config) (ns : String) : NsOutcome :=
  match env.podLists ns with
  | .error _ => .panicked []
  | .ok items =>
    match processPods env cfg ⟨0, 0⟩ items with
    | .ok st acts =>
      .ok st.podsTracking ((items.length : Int) - st.podsTracking)
        st.podsKilled acts
    | .panicked acts => .panicked acts

/-- Outcome of a whole `reapPods` invocation: per-namespace results in
order; a panic in one namespace aborts the process, dropping the
namespaces not yet reached. -/
inductive RunOutcome where
  | ok (results : List (String × NsOutcome))
  | panicked (results : List (String × NsOutcome))
deriving DecidableEq, Repr

/-- `reapPods` (main.go lines 231–296): iterate the configured namespaces;
an empty configuration is a logged no-op. -/
def reapPods (env : Env) (cfg : Config) : List String → RunOutcome
  | [] => .ok []
  | ns :: rest =>
    match reapNamespacePods env cfg ns with
    | .panicked acts => .panicked [(ns, .panicked acts)]
    | .ok t i k a =>
      match reapPods env cfg rest with
      | .ok rs => .ok ((ns, NsOutcome.ok t i k a) :: rs)
      | .panicked rs => .panicked ((ns, NsOutcome.ok t i k a) :: rs)

/-! Predicates used to state properties of the pod reconciler. -/

/-- The pod carries the lifetime annotation. -/
def annotated (p : Pod) : Bool :=
  (lookupKV lifetimeKey p.annotations).isSome

/-- The pod currently qualifies for a TTL reap: annotated, the value parses
to a nonzero duration, and the pod's age exceeds it.  (Budget and call
outcome are not part of qualification.) -/
def qualifies (env : Env) (p : Pod) : Bool :=
  match lookupKV lifetimeKey p.annotations with
  | none => false
  | some val =>
    let lifetime := (env.parseDuration val).1
    if lifetime = 0 then false
    else if env.now - p.creationTimestamp > lifetime then true
    else false

/-- Whether the cluster accepts the reap call the mode flag selects. -/
def reapSucceeds (env : Env) (cfg : Config) (p : Pod) : Bool :=
  if cfg.evict then env.evictSucceeds p.podNamespace p.name
  else env.deleteSucceeds p.podNamespace p.name

/-- The TTL reap call the mode flag selects for a pod. -/
def mkReapAct (cfg : Config) (p : Pod) : Action :=
  if cfg.evict then .ttlEvict p.podNamespace p.name
  else .ttlDelete p.podNamespace p.name

/-- The pod falls under evicted-pod cleanup this run. -/
def cleanupEligible (cfg : Config) (p : Pod) : Bool :=
  cfg.reapEvicted && containsSubstring p.statusReason evictedMarker

/-- The names targeted by the TTL-path reap calls of an outcome's trace. -/
def ttlReapedNames : ReapOutcome → List String
  | .ok _ acts => (acts.filter Action.isTTL).map Action.targetName
  | .panicked acts => (acts.filter Action.isTTL).map Action.targetName

/-! The node reconciler (`reapNodes`, main.go lines 298–368). -/

/-- The label test `k == "node-lifecycle" && v == "spot"` the source
repeats in both node loops. -/
def spotLabel (kv : String × String) : Bool :=
  kv.1 == ("node-lifecycle") && kv.2 == ("spot")

/-- One iteration of the label loop of the aggregation pass (main.go lines
322–332): set the spot flag, the tainted flag, and the fleet-group key
from the matching labels; `ng.Total` is never set, exactly as in the
source. -/
def deriveStep (acc : String × NodeGroup) (kv : String × String) :
    String × NodeGroup :=
  let ng := acc.2
  let ng := if spotLabel kv then { ng with Spot := 1 } else ng
  let ng :=
    if kv.1 == ("ci_node") && kv.2 == ("Disable:NoSchedule") then
      { ng with Tainted := 1 } else ng
  let g :=
    if kv.1 == ("alpha.eksctl.io/nodegroup-name") then kv.2 else acc.1
  (g, ng)

/-- The per-node derivation of the aggregation loop: iterate the node's
label map from a zeroed `NodeGroup` and the empty group key. -/
def deriveNode (node : Node) : String × NodeGroup :=
  node.labels.foldl deriveStep (("", ⟨0, 0, 0⟩))

/-- Go map write `m[g] = v` on an association list. -/
def upsertGroup (g : String) (v : NodeGroup) :
    List (String × NodeGroup) → List (String × NodeGroup)
  | [] => [(g, v)]
  | (k, w) :: rest =>
    if k == g then (k, v) :: rest else (k, w) :: upsertGroup g v rest

/-- One iteration of the aggregation loop (main.go lines 319–340): derive
the node's flags and group, add the counts already recorded for that group
if present, and store the result. -/
def accumNode (m : List (String × NodeGroup)) (node : Node) :
    List (String × NodeGroup) :=
  let d := deriveNode node
  let ng :=
    match lookupKV d.1 m with
    | some old =>
      (⟨d.2.Spot + old.Spot, d.2.Tainted + old.Tainted,
        d.2.Total + old.Total⟩ : NodeGroup)
    | none => d.2
  upsertGroup d.1 ng m

/-- The `nGroups` map after the aggregation loop; its entries are the
per-group gauge values published to the metrics sink (main.go lines
342–346). -/
def nGroups (nodes : List Node) : List (String × NodeGroup) :=
  nodes.foldl accumNode []

/-- The node is spot-labeled. -/
def isSpotNode (n : Node) : Bool :=
  n.labels.any spotLabel

/-- The taint-application pass (main.go lines 348–367): skip nodes whose
age is below the threshold, recompute the spot flag from the labels, skip
non-spot nodes, and call `AddOrUpdateTaintOnNode` on the rest (a per-node
failure is logged and does not stop the loop, so the trace is unaffected).
Returns the names of the nodes the taint call targets, in order. -/
def reapNodesTaintPass (now lifetime : Int) : List Node → List String
  | [] => []
  | node :: rest =>
    let currentLifetime := now - node.creationTimestamp
    if currentLifetime < lifetime then reapNodesTaintPass now lifetime rest
    else
      let spot := node.labels.foldl
        (fun spot kv => if spotLabel kv then true else spot) false
      if spot then node.name :: reapNodesTaintPass now lifetime rest
      else reapNodesTaintPass now lifetime rest

/-- Outcome of `reapNodes`: disabled (no `NODE_LIFE_TIME`), threshold parse
failure (logged, skipped), or a completed run carrying the published
per-group gauges and the taint-call targets. -/
inductive NodesOutcome where
  | disabled
  | parseFailed
  | ran (groups : List (String × NodeGroup)) (taints : List String)
deriving DecidableEq, Repr

/-- `reapNodes` (main.go lines 298–368): no-op when `NODE_LIFE_TIME` is
empty; parse it, skipping the tick on error; list the nodes — the error is
discarded (`nodes, _ := ...`) and the typed client returns an allocated
empty list alongside an error, so a failed list yields no items; then run
the aggregation pass and the taint pass. -/
def reapNodes (env : Env) : NodesOutcome :=
  if env.nodeLifeTime.length == 0 then .disabled
  else
    let pd := env.parseDuration env.nodeLifeTime
    if pd.2 then .parseFailed
    else
      let items :=
        match env.nodesList with
        | .ok items => items
        | .error _ => []
      .ran (nGroups items) (reapNodesTaintPass env.now pd.1 items)

/-- Sum of the published spot gauge over all group keys. -/
def sumSpot (m : List (String × NodeGroup)) : Nat :=
  (m.map fun e => e.2.Spot).sum

/-! Concrete environments and inputs used to evaluate the model at
specific points. -/

/-- A duration parser fixing a few concrete values: `1h` parses to 3600
(seconds scale is irrelevant to the model), everything else fails,
returning 0 alongside the error as `time.ParseDuration` does. -/
def demoParse : String → Int × Bool :=
  fun s => if s == ("1h") then (3600, false) else (0, true)

/-- A cluster where every mutation call succeeds, pod lists are empty, the
clock reads 7200, and node reconciliation is disabled. -/
def demoEnv : Env where
  now := 7200
  parseDuration := demoParse
  evictSucceeds := fun _ _ => true
  deleteSucceeds := fun _ _ => true
  podLists := fun _ => .ok []
  nodesList := .ok []
  nodeLifeTime := ""

/-- A pod in namespace `default` created at time 0. -/
def mkPod (nm : String) (ann : List (String × String)) (reason : String) :
    Pod :=
  ⟨("default"), nm, 0, ann, reason⟩

/-- The spec's concrete pod scenario: five pods, three carrying the
lifetime annotation `1h` and created two hours ago, two without it. -/
def demoPods : List Pod :=
  [mkPod ("p1") [(lifetimeKey, ("1h"))] (""),
   mkPod ("p2") [(lifetimeKey, ("1h"))] (""),
   mkPod ("p3") [(lifetimeKey, ("1h"))] (""),
   mkPod ("p4") [] (""),
   mkPod ("p5") [] ("")]

/-- `demoEnv` whose `default` namespace lists `demoPods`. -/
def envScenario : Env :=
  { demoEnv with
    podLists := fun ns => if ns == ("default") then .ok demoPods else .ok [] }

/-- A cluster whose delete and evict calls all fail. -/
def envFailing : Env :=
  { demoEnv with
    evictSucceeds := fun _ _ => false
    deleteSucceeds := fun _ _ => false }

/-- A cluster whose pod and node list calls fail, with a parseable
`NODE_LIFE_TIME`. -/
def envListErr : Env :=
  { demoEnv with
    podLists := fun _ => .error ()
    nodesList := .error ()
    nodeLifeTime := ("1h") }

/-- `demoEnv` whose namespaces list a single pod whose lifetime value
`bad` fails parsing. -/
def envBadPod : Env :=
  { demoEnv with
    podLists := fun _ => .ok [mkPod ("pb") [(lifetimeKey, ("bad"))] ("")] }

/-- A node with the spot label only. -/
def spotNode (nm : String) (ct : Int) : Node :=
  ⟨nm, ct, [(("node-lifecycle"), ("spot"))]⟩

/-- A spot node in fleet group `ng-a`. -/
def groupedSpotNode (nm : String) (ct : Int) : Node :=
  ⟨nm, ct,
    [(("node-lifecycle"), ("spot")),
     (("alpha.eksctl.io/nodegroup-name"), ("ng-a"))]⟩

/-! Helper lemmas characterising the per-pod step functions. -/

theorem withActs_nil (o : ReapOutcome) : o.withActs [] = o := by
  cases o <;> simp [ReapOutcome.withActs]

theorem cleanupStep_eq (env : Env) (cfg : Config) (st : PodState) (p : Pod) :
    cleanupStep env cfg st p =
      if cleanupEligible cfg p then
        if env.deleteSucceeds p.podNamespace p.name then
          .ok ({ st with podsKilled := st.podsKilled + 1 },
            [.cleanupDelete p.podNamespace p.name])
        else .error [.cleanupDelete p.podNamespace p.name]
      else .ok (st, []) := rfl

theorem cleanupStep_not_eligible (env : Env) (cfg : Config) (st : PodState)
    (p : Pod) (h : cleanupEligible cfg p = false) :
    cleanupStep env cfg st p = .ok (st, []) := by
  rw [cleanupStep_eq, h]; rfl

theorem cleanupStep_succeeds (env : Env) (cfg : Config) (st : PodState)
    (p : Pod) (h : cleanupEligible cfg p = true)
    (hd : env.deleteSucceeds p.podNamespace p.name = true) :
    cleanupStep env cfg st p =
      .ok ({ st with podsKilled := st.podsKilled + 1 },
        [.cleanupDelete p.podNamespace p.name]) := by
  rw [cleanupStep_eq, h, if_pos rfl, hd]; rfl

theorem cleanupStep_fails (env : Env) (cfg : Config) (st : PodState)
    (p : Pod) (h : cleanupEligible cfg p = true)
    (hd : env.deleteSucceeds p.podNamespace p.name = false) :
    cleanupStep env cfg st p =
      .error [.cleanupDelete p.podNamespace p.name] := by
  rw [cleanupStep_eq, h, if_pos rfl, hd]; rfl

theorem qualifies_of_lookup_none (env : Env) (p : Pod)
    (hl : lookupKV lifetimeKey p.annotations = none) :
    qualifies env p = false := by
  simp [qualifies, hl]

theorem annotated_of_lookup_none (p : Pod)
    (hl : lookupKV lifetimeKey p.annotations = none) :
    annotated p = false := by
  simp [annotated, hl]

theorem annotated_of_lookup_some (p : Pod) (val : String)
    (hl : lookupKV lifetimeKey p.annotations = some val) :
    annotated p = true := by
  simp [annotated, hl]

theorem ttlStep_of_lookup_none (env : Env) (cfg : Config) (st : PodState)
    (p : Pod) (hl : lookupKV lifetimeKey p.annotations = none) :
    ttlStep env cfg st p = (st, []) := by
  simp [ttlStep, hl]

theorem ttlStep_not_qualifying (env : Env) (cfg : Config) (st : PodState)
    (p : Pod) (val : String)
    (hl : lookupKV lifetimeKey p.annotations = some val)
    (hq : qualifies env p = false) :
    ttlStep env cfg st p =
      ({ st with podsTracking := st.podsTracking + 1 }, []) := by
  by_cases h0 : (env.parseDuration val).1 = 0
  · simp [ttlStep, hl, h0]
  · have hage : ¬ env.now - p.creationTimestamp > (env.parseDuration val).1 := by
      simp [qualifies, hl, h0] at hq
      omega
    simp [ttlStep, hl, h0, hage]

theorem qualifies_parts (env : Env) (p : Pod) (val : String)
    (hl : lookupKV lifetimeKey p.annotations = some val)
    (hq : qualifies env p = true) :
    ¬ (env.parseDuration val).1 = 0 ∧
      env.now - p.creationTimestamp > (env.parseDuration val).1 := by
  simp [qualifies, hl] at hq
  by_cases h0 : (env.parseDuration val).1 = 0
  · simp [h0] at hq
  · refine ⟨h0, ?_⟩
    by_cases hage : env.now - p.creationTimestamp > (env.parseDuration val).1
    · exact hage
    · simp [h0, hage] at hq

theorem ttlStep_budget_closed (env : Env) (cfg : Config) (st : PodState)
    (p : Pod) (val : String)
    (hl : lookupKV lifetimeKey p.annotations = some val)
    (hb : ¬ st.podsKilled < cfg.maxReaperCount) :
    ttlStep env cfg st p =
      ({ st with podsTracking := st.podsTracking + 1 }, []) := by
  by_cases h0 : (env.parseDuration val).1 = 0 <;> simp [ttlStep, hl, h0, hb]

theorem ttlStep_reap_success (env : Env) (cfg : Config) (st : PodState)
    (p : Pod) (hq : qualifies env p = true)
    (hb : st.podsKilled < cfg.maxReaperCount)
    (hsucc : reapSucceeds env cfg p = true) :
    ttlStep env cfg st p =
      ({ st with podsTracking := st.podsTracking + 1,
                 podsKilled := st.podsKilled + 1 },
        [mkReapAct cfg p]) := by
  match hl : lookupKV lifetimeKey p.annotations with
  | none => rw [qualifies_of_lookup_none env p hl] at hq; exact absurd hq (by simp)
  | some val =>
    obtain ⟨h0, hage⟩ := qualifies_parts env p val hl hq
    cases he : cfg.evict <;>
      simp [reapSucceeds, he] at hsucc <;>
      simp [ttlStep, hl, h0, hb, hage, he, hsucc, mkReapAct]

theorem ttlStep_reap_failure (env : Env) (cfg : Config) (st : PodState)
    (p : Pod) (hq : qualifies env p = true)
    (hb : st.podsKilled < cfg.maxReaperCount)
    (hfail : reapSucceeds env cfg p = false) :
    ttlStep env cfg st p =
      ({ st with podsTracking := st.podsTracking + 1 },
        [mkReapAct cfg p]) := by
  match hl : lookupKV lifetimeKey p.annotations with
  | none => rw [qualifies_of_lookup_none env p hl] at hq; exact absurd hq (by simp)
  | some val =>
    obtain ⟨h0, hage⟩ := qualifies_parts env p val hl hq
    cases he : cfg.evict <;>
      simp [reapSucceeds, he] at hfail <;>
      simp [ttlStep, hl, h0, hb, hage, he, hfail, mkReapAct]

theorem ttlStep_no_cleanup_acts (env : Env) (cfg : Config) (st : PodState)
    (p : Pod) :
    ((ttlStep env cfg st p).2.filter Action.isCleanup) = [] := by
  unfold ttlStep
  split
  · rfl
  · dsimp only
    split
    · rfl
    · split
      · split
        · split <;> split <;> simp [Action.isCleanup]
        · rfl
      · rfl

theorem exists_lookup_of_qualifies (env : Env) (p : Pod)
    (hq : qualifies env p = true) :
    ∃ val, lookupKV lifetimeKey p.annotations = some val := by
  match hl : lookupKV lifetimeKey p.annotations with
  | none => rw [qualifies_of_lookup_none env p hl] at hq; exact absurd hq (by simp)
  | some val => exact ⟨val, rfl⟩

/-- The per-namespace loop when the cleanup branch is inert and every
TTL reap call the cluster receives succeeds: the trace consists of the
reap calls for the first `budget − killed` qualifying pods in list order,
`podsTracking` grows by the number of annotated pods, and `podsKilled`
grows by the number of calls issued. -/
theorem processPods_noCleanup (env : Env) (cfg : Config) (pods : List Pod) :
    ∀ st : PodState,
      (∀ p ∈ pods, cleanupEligible cfg p = false) →
      (∀ p ∈ pods, qualifies env p = true → reapSucceeds env cfg p = true) →
      processPods env cfg st pods =
        .ok
          ⟨st.podsTracking + (pods.countP (fun q => annotated q) : Int),
           st.podsKilled +
             (((pods.filter (fun q => qualifies env q)).take
                 (cfg.maxReaperCount - st.podsKilled).toNat).length : Int)⟩
          (((pods.filter (fun q => qualifies env q)).take
              (cfg.maxReaperCount - st.podsKilled).toNat).map (mkReapAct cfg)) := by
  induction pods with
  | nil =>
    intro st _ _
    simp [processPods]
  | cons p ps ih =>
    intro st hc hs
    have hcp : cleanupEligible cfg p = false := hc p (List.mem_cons_self _ _)
    have hc' : ∀ q ∈ ps, cleanupEligible cfg q = false :=
      fun q hq => hc q (List.mem_cons_of_mem _ hq)
    have hs' : ∀ q ∈ ps, qualifies env q = true → reapSucceeds env cfg q = true :=
      fun q hq => hs q (List.mem_cons_of_mem _ hq)
    have hstep : processPods env cfg st (p :: ps) =
        (processPods env cfg (ttlStep env cfg st p).1 ps).withActs
          ((ttlStep env cfg st p).2 ++ []) := by
      simp only [processPods, processPod,
        cleanupStep_not_eligible env cfg _ p hcp]
    rw [hstep, List.append_nil]
    by_cases hq : qualifies env p = true
    · obtain ⟨val, hl⟩ := exists_lookup_of_qualifies env p hq
      by_cases hb : st.podsKilled < cfg.maxReaperCount
      · rw [ttlStep_reap_success env cfg st p hq hb
          (hs p (List.mem_cons_self _ _) hq)]
        rw [ih _ hc' hs']
        have hn : (cfg.maxReaperCount - st.podsKilled).toNat =
            (cfg.maxReaperCount - (st.podsKilled + 1)).toNat + 1 := by omega
        simp only [ReapOutcome.withActs, List.countP_cons,
          annotated_of_lookup_some p val hl, List.filter_cons, hq, if_true,
          hn, List.take_succ_cons, List.map_cons, List.singleton_append,
          ReapOutcome.ok.injEq, PodState.mk.injEq, List.length_cons]
        refine ⟨⟨by push_cast <;> omega, by push_cast <;> omega⟩, trivial⟩
      · rw [ttlStep_budget_closed env cfg st p val hl hb]
        rw [ih _ hc' hs']
        have hn : (cfg.maxReaperCount - st.podsKilled).toNat = 0 := by omega
        simp only [ReapOutcome.withActs, List.countP_cons,
          annotated_of_lookup_some p val hl, List.filter_cons, hq, if_true,
          hn, List.take_zero, List.map_nil, List.length_nil,
          List.nil_append, ReapOutcome.ok.injEq, PodState.mk.injEq]
        refine ⟨⟨by push_cast <;> omega, by push_cast <;> omega⟩, trivial⟩
    · have hq' : qualifies env p = false := by simpa using hq
      match hl : lookupKV lifetimeKey p.annotations with
      | none =>
        rw [ttlStep_of_lookup_none env cfg st p hl]
        rw [ih _ hc' hs', withActs_nil]
        simp only [List.countP_cons, annotated_of_lookup_none p hl,
          List.filter_cons, hq', ReapOutcome.ok.injEq, PodState.mk.injEq]
        refine ⟨⟨by push_cast <;> omega, by push_cast <;> omega⟩, by simp⟩
      | some val =>
        rw [ttlStep_not_qualifying env cfg st p val hl hq']
        rw [ih _ hc' hs', withActs_nil]
        simp only [List.countP_cons, annotated_of_lookup_some p val hl,
          List.filter_cons, hq', ReapOutcome.ok.injEq, PodState.mk.injEq]
        refine ⟨⟨by push_cast <;> omega, by push_cast <;> omega⟩, by simp⟩

theorem ttlStep_tracking (env : Env) (cfg : Config) (st : PodState)
    (p : Pod) :
    (ttlStep env cfg st p).1.podsTracking =
      st.podsTracking + (if annotated p then 1 else 0) := by
  match hl : lookupKV lifetimeKey p.annotations with
  | none => simp [ttlStep_of_lookup_none env cfg st p hl,
      annotated_of_lookup_none p hl]
  | some val =>
    rw [annotated_of_lookup_some p val hl, if_pos rfl]
    by_cases hq : qualifies env p = true
    · by_cases hb : st.podsKilled < cfg.maxReaperCount
      · by_cases hsucc : reapSucceeds env cfg p = true
        · rw [ttlStep_reap_success env cfg st p hq hb hsucc]
        · rw [ttlStep_reap_failure env cfg st p hq hb
            (by simpa using hsucc)]
      · rw [ttlStep_budget_closed env cfg st p val hl hb]
    · rw [ttlStep_not_qualifying env cfg st p val hl (by simpa using hq)]

theorem mkReapAct_targetName (cfg : Config) (p : Pod) :
    (mkReapAct cfg p).targetName = p.name := by
  cases h : cfg.evict <;> simp [mkReapAct, h, Action.targetName]

theorem mkReapAct_isTTL (cfg : Config) (p : Pod) :
    (mkReapAct cfg p).isTTL = true := by
  cases h : cfg.evict <;> simp [mkReapAct, h, Action.isTTL]

theorem filter_isTTL_map_mkReapAct (cfg : Config) (l : List Pod) :
    (l.map (mkReapAct cfg)).filter Action.isTTL = l.map (mkReapAct cfg) := by
  refine List.filter_eq_self.mpr ?_
  intro a ha
  obtain ⟨p, _, rfl⟩ := List.mem_map.mp ha
  exact mkReapAct_isTTL cfg p

theorem map_targetName_map_mkReapAct (cfg : Config) (l : List Pod) :
    (l.map (mkReapAct cfg)).map Action.targetName = l.map Pod.name := by
  rw [List.map_map]
  exact List.map_congr_left fun p _ => mkReapAct_targetName cfg p

/-- The per-namespace loop when evicted-pod cleanup is enabled and every
cleanup delete the cluster receives succeeds: the loop completes (no
panic) and the cleanup deletes in the trace are exactly one per listed pod
whose status reason contains the evicted marker, in list order, whatever
the reap budget is. -/
theorem processPods_cleanup_trace (env : Env) (cfg : Config)
    (pods : List Pod) (he : cfg.reapEvicted = true) :
    ∀ st : PodState,
      (∀ p ∈ pods, containsSubstring p.statusReason evictedMarker = true →
        env.deleteSucceeds p.podNamespace p.name = true) →
      ∃ st' acts, processPods env cfg st pods = .ok st' acts ∧
        acts.filter Action.isCleanup =
          (pods.filter
            (fun p => containsSubstring p.statusReason evictedMarker)).map
            (fun p => Action.cleanupDelete p.podNamespace p.name) := by
  induction pods with
  | nil => exact fun st _ => ⟨st, [], rfl, by simp⟩
  | cons p ps ih =>
    intro st hs
    have hs' : ∀ q ∈ ps,
        containsSubstring q.statusReason evictedMarker = true →
        env.deleteSucceeds q.podNamespace q.name = true :=
      fun q hq => hs q (List.mem_cons_of_mem _ hq)
    by_cases hev : containsSubstring p.statusReason evictedMarker = true
    · have hd := hs p (List.mem_cons_self _ _) hev
      have helig : cleanupEligible cfg p = true := by
        simp [cleanupEligible, he, hev]
      have hstep : processPod env cfg st p =
          .ok ({ (ttlStep env cfg st p).1 with
                  podsKilled := (ttlStep env cfg st p).1.podsKilled + 1 },
            (ttlStep env cfg st p).2 ++
              [Action.cleanupDelete p.podNamespace p.name]) := by
        simp only [processPod, cleanupStep_succeeds env cfg _ p helig hd]
      obtain ⟨st', acts, hrun, hfilter⟩ := ih
        { (ttlStep env cfg st p).1 with
          podsKilled := (ttlStep env cfg st p).1.podsKilled + 1 } hs'
      refine ⟨st',
        ((ttlStep env cfg st p).2 ++
          [Action.cleanupDelete p.podNamespace p.name]) ++ acts, ?_, ?_⟩
      · simp only [processPods, hstep, hrun, ReapOutcome.withActs]
      · simp only [List.filter_append, hfilter,
          ttlStep_no_cleanup_acts, List.filter_cons, hev, if_true]
        simp [Action.isCleanup]
    · have hevf : containsSubstring p.statusReason evictedMarker = false := by
        simpa using hev
      have helig : cleanupEligible cfg p = false := by
        simp [cleanupEligible, he, hevf]
      have hstep : processPod env cfg st p =
          .ok ((ttlStep env cfg st p).1, (ttlStep env cfg st p).2 ++ []) := by
        simp only [processPod, cleanupStep_not_eligible env cfg _ p helig]
      obtain ⟨st', acts, hrun, hfilter⟩ := ih (ttlStep env cfg st p).1 hs'
      refine ⟨st', ((ttlStep env cfg st p).2 ++ []) ++ acts, ?_, ?_⟩
      · simp only [processPods, hstep, hrun, ReapOutcome.withActs]
      · simp only [List.filter_append, hfilter,
          ttlStep_no_cleanup_acts, List.filter_cons, hevf]
        simp

/-- With evicted-pod cleanup disabled, the loop never panics and never
issues a cleanup delete. -/
theorem processPods_cleanup_disabled (env : Env) (cfg : Config)
    (pods : List Pod) (he : cfg.reapEvicted = false) :
    ∀ st : PodState,
      ∃ st' acts, processPods env cfg st pods = .ok st' acts ∧
        acts.filter Action.isCleanup = [] := by
  induction pods with
  | nil => exact fun st => ⟨st, [], rfl, by simp⟩
  | cons p ps ih =>
    intro st
    have helig : cleanupEligible cfg p = false := by
      simp [cleanupEligible, he]
    have hstep : processPod env cfg st p =
        .ok ((ttlStep env cfg st p).1, (ttlStep env cfg st p).2 ++ []) := by
      simp only [processPod, cleanupStep_not_eligible env cfg _ p helig]
    obtain ⟨st', acts, hrun, hfilter⟩ := ih (ttlStep env cfg st p).1
    refine ⟨st', ((ttlStep env cfg st p).2 ++ []) ++ acts, ?_, ?_⟩
    · simp only [processPods, hstep, hrun, ReapOutcome.withActs]
    · simp only [List.filter_append, hfilter, ttlStep_no_cleanup_acts]
      simp

/-! Helper lemmas for the node reconciler. -/

theorem labels_spot_fold (l : List (String × String)) :
    ∀ b : Bool,
      l.foldl (fun spot kv => if spotLabel kv then true else spot) b =
        (b || l.any spotLabel) := by
  induction l with
  | nil => intro b; simp
  | cons kv rest ih =>
    intro b
    simp only [List.foldl_cons, List.any_cons, ih]
    by_cases h : spotLabel kv = true <;> simp [h, Bool.or_comm, Bool.or_assoc]

theorem deriveStep_spot (acc : String × NodeGroup) (kv : String × String) :
    (deriveStep acc kv).2.Spot =
      if spotLabel kv then 1 else acc.2.Spot := by
  unfold deriveStep
  split_ifs <;> rfl

theorem deriveStep_total (acc : String × NodeGroup) (kv : String × String) :
    (deriveStep acc kv).2.Total = acc.2.Total := by
  unfold deriveStep
  split_ifs <;> rfl

theorem foldl_deriveStep_spot (l : List (String × String)) :
    ∀ acc : String × NodeGroup,
      (l.foldl deriveStep acc).2.Spot =
        if l.any spotLabel then 1 else acc.2.Spot := by
  induction l with
  | nil => intro acc; simp
  | cons kv rest ih =>
    intro acc
    simp only [List.foldl_cons, List.any_cons, ih, deriveStep_spot]
    by_cases h : spotLabel kv = true
    · simp [h]
    · have h' : spotLabel kv = false := by simpa using h
      simp only [h', Bool.false_or, Bool.false_eq_true, if_false]

theorem foldl_deriveStep_total (l : List (String × String)) :
    ∀ acc : String × NodeGroup,
      (l.foldl deriveStep acc).2.Total = acc.2.Total := by
  induction l with
  | nil => intro acc; rfl
  | cons kv rest ih =>
    intro acc
    simp only [List.foldl_cons, ih, deriveStep_total]

theorem deriveNode_spot (n : Node) :
    (deriveNode n).2.Spot = if isSpotNode n then 1 else 0 := by
  rw [deriveNode, foldl_deriveStep_spot]
  rfl

theorem deriveNode_total (n : Node) :
    (deriveNode n).2.Total = 0 := by
  rw [deriveNode, foldl_deriveStep_total]

theorem sumSpot_cons (k : String) (w : NodeGroup)
    (m : List (String × NodeGroup)) :
    sumSpot ((k, w) :: m) = w.Spot + sumSpot m := by
  simp [sumSpot]

theorem sumSpot_upsert_none (g : String) (v : NodeGroup) :
    ∀ m : List (String × NodeGroup), lookupKV g m = none →
      sumSpot (upsertGroup g v m) = sumSpot m + v.Spot := by
  intro m
  induction m with
  | nil => intro _; simp [sumSpot, upsertGroup]
  | cons e rest ih =>
    intro hl
    obtain ⟨k, w⟩ := e
    by_cases hk : (k == g) = true
    · simp [lookupKV, hk] at hl
    · simp only [lookupKV] at hl
      rw [if_neg hk] at hl
      simp only [upsertGroup]
      rw [if_neg hk, sumSpot_cons, sumSpot_cons]
      have h := ih hl
      omega

theorem sumSpot_upsert_some (g : String) (v old : NodeGroup) :
    ∀ m : List (String × NodeGroup), lookupKV g m = some old →
      sumSpot (upsertGroup g v m) + old.Spot = sumSpot m + v.Spot := by
  intro m
  induction m with
  | nil => intro hl; simp [lookupKV] at hl
  | cons e rest ih =>
    intro hl
    obtain ⟨k, w⟩ := e
    by_cases hk : (k == g) = true
    · simp only [lookupKV] at hl
      rw [if_pos hk] at hl
      injection hl with hw
      subst hw
      simp only [upsertGroup]
      rw [if_pos hk, sumSpot_cons, sumSpot_cons]
      omega
    · simp only [lookupKV] at hl
      rw [if_neg hk] at hl
      simp only [upsertGroup]
      rw [if_neg hk, sumSpot_cons, sumSpot_cons]
      have h := ih hl
      omega

theorem sumSpot_accumNode (m : List (String × NodeGroup)) (n : Node) :
    sumSpot (accumNode m n) = sumSpot m + (deriveNode n).2.Spot := by
  cases hl : lookupKV (deriveNode n).1 m with
  | none =>
    have h := sumSpot_upsert_none (deriveNode n).1 (deriveNode n).2 m hl
    simp only [accumNode, hl]
    exact h
  | some old =>
    have h := sumSpot_upsert_some (deriveNode n).1
      (⟨(deriveNode n).2.Spot + old.Spot, (deriveNode n).2.Tainted + old.Tainted,
        (deriveNode n).2.Total + old.Total⟩ : NodeGroup) old m hl
    simp only [accumNode, hl]
    dsimp only at h
    omega

/-- C7: after the aggregation pass, the published spot gauge summed over
all fleet-group keys (the empty key for unlabeled nodes included, since
they bucket under `""`) equals the number of nodes in the listed snapshot
bearing the spot provisioning label. -/
theorem claim_C7 (nodes : List Node) :
    sumSpot (nGroups nodes) = nodes.countP isSpotNode := by
  have haux : ∀ (ns : List Node) (m : List (String × NodeGroup)),
      sumSpot (ns.foldl accumNode m) = sumSpot m + ns.countP isSpotNode := by
    intro ns
    induction ns with
    | nil => intro m; simp [sumSpot]
    | cons n rest ih =>
      intro m
      simp only [List.foldl_cons, List.countP_cons, ih, sumSpot_accumNode,
        deriveNode_spot]
      by_cases h : isSpotNode n = true <;> simp [h] <;> omega
  simpa [sumSpot] using haux nodes []

/-- C6 (amended): the taint pass issues its add-or-update taint calls
exactly for the nodes that are spot-labeled AND whose age is at least the
global threshold (the source skips only nodes with age strictly below it),
in list order; every other node — younger-than-threshold spot nodes and
non-spot nodes of any age — receives no call in this pass.  The original
claim's strict "age exceeds the threshold" fails at equality, see the
counterexample. -/
theorem claim_C6_amended (now lifetime : Int) (nodes : List Node) :
    reapNodesTaintPass now lifetime nodes =
      (nodes.filter fun n =>
        decide (lifetime ≤ now - n.creationTimestamp) && isSpotNode n).map
        Node.name := by
  induction nodes with
  | nil => rfl
  | cons n rest ih =>
    rw [reapNodesTaintPass, List.filter_cons]
    simp only [labels_spot_fold, Bool.false_or]
    by_cases hage : now - n.creationTimestamp < lifetime
    · have h1 : ¬ lifetime ≤ now - n.creationTimestamp := by omega
      simp [hage, h1, ih]
    · have h1 : lifetime ≤ now - n.creationTimestamp := by omega
      by_cases hspot : isSpotNode n = true
      · have hspot' : n.labels.any spotLabel = true := hspot
        simp [hage, h1, hspot, hspot', isSpotNode, ih]
      · have hspot' : n.labels.any spotLabel = false := by
          simpa [isSpotNode] using hspot
        simp [hage, h1, hspot', isSpotNode, ih]

/-! The claims. -/

/-- C1: in a namespace pass where the listed pods contain k pods that
currently qualify for TTL reaping (annotated, nonzero parse, aged out) and
the reap budget is m with 0 ≤ m < k — evicted-pod cleanup being inert for
these pods, the cluster accepting every reap call, and pod names being
distinct — exactly m reap calls are issued, namely the evict-or-delete
calls (per the mode flag) for the first m qualifying pods in list order;
the remaining k − m qualifying pods are targeted by no call; and the
killed count pushed to the metrics sink for the namespace equals m. -/
theorem claim_C1 (env : Env) (cfg : Config) (ns : String) (pods : List Pod)
    (k m : Int)
    (hlist : env.podLists ns = .ok pods)
    (hclean : ∀ p ∈ pods, cleanupEligible cfg p = false)
    (hsucc : ∀ p ∈ pods, qualifies env p = true →
      reapSucceeds env cfg p = true)
    (hnd : (pods.map Pod.name).Nodup)
    (hk : ((pods.filter (fun q => qualifies env q)).length : Int) = k)
    (hm : cfg.maxReaperCount = m) (hm0 : 0 ≤ m) (hmk : m < k) :
    reapNamespacePods env cfg ns =
      .ok ((pods.countP (fun q => annotated q)) : Int)
        ((pods.length : Int) - ((pods.countP (fun q => annotated q)) : Int))
        m
        (((pods.filter (fun q => qualifies env q)).take m.toNat).map
          (mkReapAct cfg)) ∧
    ((((pods.filter (fun q => qualifies env q)).take m.toNat).length : Int)
      = m) ∧
    ((((pods.filter (fun q => qualifies env q)).drop m.toNat).length : Int)
      = k - m) ∧
    (∀ p ∈ (pods.filter (fun q => qualifies env q)).drop m.toNat,
      ∀ a ∈ ((pods.filter (fun q => qualifies env q)).take m.toNat).map
          (mkReapAct cfg),
        a.targetName ≠ p.name) := by
  subst hm
  subst hk
  have hrun := processPods_noCleanup env cfg pods ⟨0, 0⟩ hclean hsucc
  have hlen_take :
      ((pods.filter (fun q => qualifies env q)).take
        cfg.maxReaperCount.toNat).length = cfg.maxReaperCount.toNat := by
    rw [List.length_take]
    omega
  have hfq_nodup :
      ((pods.filter (fun q => qualifies env q)).map Pod.name).Nodup :=
    List.Nodup.sublist ((List.filter_sublist pods).map Pod.name) hnd
  refine ⟨?_, ?_, ?_, ?_⟩
  · simp only [reapNamespacePods, hlist]
    rw [hrun]
    dsimp only
    simp only [Int.sub_zero, zero_add]
    simp only [NsOutcome.ok.injEq, true_and, and_true]
    rw [hlen_take]
    omega
  · rw [hlen_take]
    omega
  · rw [List.length_drop]
    omega
  · intro p hp a ha hEq
    obtain ⟨qq, hqq, rfl⟩ := List.mem_map.mp ha
    rw [mkReapAct_targetName] at hEq
    have hsplit : ((pods.filter (fun q => qualifies env q)).map Pod.name) =
        (((pods.filter (fun q => qualifies env q)).take
          cfg.maxReaperCount.toNat).map Pod.name) ++
        (((pods.filter (fun q => qualifies env q)).drop
          cfg.maxReaperCount.toNat).map Pod.name) := by
      rw [← List.map_append, List.take_append_drop]
    rw [hsplit] at hfq_nodup
    obtain ⟨-, -, hdisj⟩ := List.nodup_append.mp hfq_nodup
    exact hdisj (List.mem_map_of_mem Pod.name hqq)
      (hEq ▸ List.mem_map_of_mem Pod.name hp)

theorem claim_C1_witness :
    reapNamespacePods envScenario ⟨2, false, false⟩ ("default") =
      .ok 3 2 2
        [Action.ttlDelete ("default") ("p1"),
         Action.ttlDelete ("default") ("p2")] := by
  have h := claim_C1 envScenario ⟨2, false, false⟩ ("default") demoPods 3 2
    rfl (by decide) (by decide) (by decide) (by decide) rfl
    (by decide) (by decide)
  rw [h.1]
  decide

/-- C2: the claim says the aggregation pass accumulates each group's
`Total` so the published total gauge equals the group's node count; the
code never increments `Total`.  Evaluating the aggregation at the spec's
own scenario — two spot nodes in fleet group `ng-a` — the published
aggregate for `ng-a` is Spot 2, Tainted 0, Total 0, where the claim
demands a total of 2. -/
theorem claim_C2_eval :
    nGroups [groupedSpotNode ("n1") 0, groupedSpotNode ("n2") 0] =
      [(("ng-a"), (⟨2, 0, 0⟩ : NodeGroup))] := by
  decide

/-- C3: with evicted-pod cleanup enabled (and the cluster accepting the
cleanup deletes), the pass completes and its trace contains exactly one
cleanup delete per listed pod whose status reason contains the evicted
marker, whatever `maxReaperCount` is — the budget does not constrain this
branch; with the mode disabled, the trace contains no cleanup delete. -/
theorem claim_C3 (env : Env) (cfg : Config) (pods : List Pod)
    (st : PodState) :
    (cfg.reapEvicted = true →
      (∀ p ∈ pods, containsSubstring p.statusReason evictedMarker = true →
        env.deleteSucceeds p.podNamespace p.name = true) →
      ∃ st' acts, processPods env cfg st pods = .ok st' acts ∧
        acts.filter Action.isCleanup =
          (pods.filter
            (fun p => containsSubstring p.statusReason evictedMarker)).map
            (fun p => Action.cleanupDelete p.podNamespace p.name)) ∧
    (cfg.reapEvicted = false →
      ∃ st' acts, processPods env cfg st pods = .ok st' acts ∧
        acts.filter Action.isCleanup = []) :=
  ⟨fun he hs => processPods_cleanup_trace env cfg pods he st hs,
   fun he => processPods_cleanup_disabled env cfg pods he st⟩

theorem claim_C3_witness :
    (∃ st' acts,
      processPods demoEnv ⟨0, false, true⟩ ⟨0, 0⟩
        [mkPod ("e1") [] ("Evicted"), mkPod ("p1") [] ("")] =
          .ok st' acts ∧
      acts.filter Action.isCleanup =
        [Action.cleanupDelete ("default") ("e1")]) ∧
    (∃ st' acts,
      processPods demoEnv ⟨0, false, false⟩ ⟨0, 0⟩
        [mkPod ("e1") [] ("Evicted")] = .ok st' acts ∧
      acts.filter Action.isCleanup = []) := by
  constructor
  · obtain ⟨st', acts, h1, h2⟩ :=
      (claim_C3 demoEnv ⟨0, false, true⟩
        [mkPod ("e1") [] ("Evicted"), mkPod ("p1") [] ("")] ⟨0, 0⟩).1
        rfl (by decide)
    refine ⟨st', acts, h1, ?_⟩
    rw [h2]
    decide
  · exact (claim_C3 demoEnv ⟨0, false, false⟩
      [mkPod ("e1") [] ("Evicted")] ⟨0, 0⟩).2 rfl

/-- C4: a failing TTL reap call is recovered locally — the failed call is
in the trace, `podsKilled` is not incremented (only `podsTracking` is),
and the loop continues into the remaining pods of the same pass — whereas
a failing evicted-pod cleanup delete aborts the whole process: the outcome
is a panic whose trace ends at the failed call, the remaining pods being
dropped. -/
theorem claim_C4 (env : Env) (cfg : Config) (st : PodState) (p : Pod)
    (ps : List Pod) :
    (qualifies env p = true → st.podsKilled < cfg.maxReaperCount →
      reapSucceeds env cfg p = false → cleanupEligible cfg p = false →
      processPods env cfg st (p :: ps) =
        (processPods env cfg
          { st with podsTracking := st.podsTracking + 1 } ps).withActs
          [mkReapAct cfg p]) ∧
    (cleanupEligible cfg p = true →
      env.deleteSucceeds p.podNamespace p.name = false →
      processPods env cfg st (p :: ps) =
        .panicked ((ttlStep env cfg st p).2 ++
          [Action.cleanupDelete p.podNamespace p.name])) := by
  constructor
  · intro hq hb hf hcl
    have h1 := ttlStep_reap_failure env cfg st p hq hb hf
    simp only [processPods, processPod, h1,
      cleanupStep_not_eligible env cfg _ p hcl, List.append_nil]
  · intro hcl hd
    have h2 := cleanupStep_fails env cfg (ttlStep env cfg st p).1 p hcl hd
    simp only [processPods, processPod, h2]

theorem claim_C4_witness :
    processPods envFailing ⟨30, false, false⟩ ⟨0, 0⟩
      [mkPod ("p1") [(lifetimeKey, ("1h"))] (""),
       mkPod ("p2") [(lifetimeKey, ("1h"))] ("")] =
      .ok ⟨2, 0⟩
        [Action.ttlDelete ("default") ("p1"),
         Action.ttlDelete ("default") ("p2")] ∧
    processPods envFailing ⟨30, false, true⟩ ⟨0, 0⟩
      [mkPod ("e1") [] ("Evicted"), mkPod ("p2") [] ("")] =
      .panicked [Action.cleanupDelete ("default") ("e1")] := by
  constructor
  · rw [(claim_C4 envFailing ⟨30, false, false⟩ ⟨0, 0⟩
      (mkPod ("p1") [(lifetimeKey, ("1h"))] (""))
      [mkPod ("p2") [(lifetimeKey, ("1h"))] ("")]).1
      (by decide) (by decide) (by decide) (by decide)]
    decide
  · rw [(claim_C4 envFailing ⟨30, false, true⟩ ⟨0, 0⟩
      (mkPod ("e1") [] ("Evicted")) [mkPod ("p2") [] ("")]).2
      (by decide) (by decide)]
    decide

/-- C5: a failing pod list aborts the process — the namespace iteration of
`reapPods` panics before issuing any call — while a failing node list does
not abort `reapNodes`: the error is discarded and the run completes with
an empty aggregate map and no taint call (the typed client hands back an
allocated empty list alongside the error). -/
theorem claim_C5 (env : Env) (cfg : Config) (ns : String) :
    (env.podLists ns = .error () →
      reapPods env cfg [ns] = .panicked [(ns, NsOutcome.panicked [])]) ∧
    (env.nodeLifeTime.length ≠ 0 →
      (env.parseDuration env.nodeLifeTime).2 = false →
      env.nodesList = .error () →
      reapNodes env = .ran [] []) := by
  constructor
  · intro h
    simp only [reapPods, reapNamespacePods, h]
  · intro h1 h2 h3
    have hb : (env.nodeLifeTime.length == 0) = false := by
      simpa using h1
    simp only [reapNodes, hb, h2, h3]
    rfl

theorem claim_C5_witness :
    reapPods envListErr ⟨30, false, false⟩ [("default")] =
      .panicked [(("default"), NsOutcome.panicked [])] ∧
    reapNodes envListErr = .ran [] [] := by
  constructor
  · exact (claim_C5 envListErr ⟨30, false, false⟩ ("default")).1 rfl
  · exact (claim_C5 envListErr ⟨30, false, false⟩ ("default")).2
      (by decide) (by decide) rfl

/-- C6 (counterexample): a spot-labeled node whose age equals the global
threshold exactly (clock 100, created at 28, threshold 72) receives the
taint call, although its age does not exceed the threshold — refuting the
claim that the taint is applied only when the age strictly exceeds it. -/
theorem claim_C6_counterexample :
    reapNodesTaintPass 100 72 [spotNode ("n1") 28] = [("n1")] ∧
    ¬ (100 - (spotNode ("n1") 28).creationTimestamp > 72) := by
  constructor
  · decide
  · decide

/-- C8 (counterexample): with budget 1 and two pods both past their 1h
lifetime, a completed first run reaps only p1; rerunning on the resulting
namespace — p2 survives, and nothing has newly aged out since the clock is
the same — issues one further reap call, not zero, refuting idempotence as
claimed for runs that exhausted their budget. -/
theorem claim_C8_counterexample :
    processPods demoEnv ⟨1, false, false⟩ ⟨0, 0⟩
      [mkPod ("p1") [(lifetimeKey, ("1h"))] (""),
       mkPod ("p2") [(lifetimeKey, ("1h"))] ("")] =
      .ok ⟨2, 1⟩ [Action.ttlDelete ("default") ("p1")] ∧
    processPods demoEnv ⟨1, false, false⟩ ⟨0, 0⟩
      [mkPod ("p2") [(lifetimeKey, ("1h"))] ("")] =
      .ok ⟨1, 1⟩ [Action.ttlDelete ("default") ("p2")] := by
  constructor
  · decide
  · decide

/-- C8 (amended): rerunning pod reconciliation issues zero reap calls
provided the first run reaped every pod that then qualified — cleanup
inert, every reap call accepted, and the count of qualifying pods within
the budget — and no surviving pod (a pod of the first run's list whose
name the first run did not reap) has newly come to qualify since. -/
theorem claim_C8_amended (env1 env2 : Env) (cfg : Config)
    (pods survivors : List Pod) (st : PodState)
    (hc1 : ∀ p ∈ pods, cleanupEligible cfg p = false)
    (hs1 : ∀ p ∈ pods, qualifies env1 p = true →
      reapSucceeds env1 cfg p = true)
    (hbudget : ((pods.filter (fun q => qualifies env1 q)).length : Int) ≤
      cfg.maxReaperCount)
    (hsurv : ∀ p ∈ survivors, p ∈ pods ∧
      p.name ∉ ttlReapedNames (processPods env1 cfg ⟨0, 0⟩ pods))
    (hnonew : ∀ p ∈ survivors, qualifies env2 p = true →
      qualifies env1 p = true)
    (hc2 : ∀ p ∈ survivors, cleanupEligible cfg p = false) :
    processPods env2 cfg st survivors =
      .ok ⟨st.podsTracking + (survivors.countP (fun q => annotated q) : Int),
           st.podsKilled⟩ [] := by
  have hrun1 := processPods_noCleanup env1 cfg pods ⟨0, 0⟩ hc1 hs1
  have hnames : ttlReapedNames (processPods env1 cfg ⟨0, 0⟩ pods) =
      (pods.filter (fun q => qualifies env1 q)).map Pod.name := by
    rw [hrun1]
    show ((((pods.filter (fun q => qualifies env1 q)).take
        (cfg.maxReaperCount - (0 : Int)).toNat).map (mkReapAct cfg)).filter
        Action.isTTL).map Action.targetName = _
    rw [List.take_of_length_le (by omega), filter_isTTL_map_mkReapAct,
      map_targetName_map_mkReapAct]
  have hnoq : ∀ p ∈ survivors, ¬ qualifies env2 p = true := by
    intro p hp hq2
    have hq1 := hnonew p hp hq2
    have hmem : p ∈ pods.filter (fun q => qualifies env1 q) :=
      List.mem_filter.mpr ⟨(hsurv p hp).1, hq1⟩
    exact (hsurv p hp).2 (hnames ▸ List.mem_map_of_mem Pod.name hmem)
  have hfq2 : survivors.filter (fun q => qualifies env2 q) = [] :=
    List.filter_eq_nil.mpr (fun p hp => by simpa using hnoq p hp)
  have hrun2 := processPods_noCleanup env2 cfg survivors st hc2
    (fun p hp hq => absurd hq (hnoq p hp))
  rw [hrun2, hfq2]
  simp

theorem claim_C8_amended_witness :
    processPods demoEnv ⟨30, false, false⟩ ⟨0, 0⟩ [mkPod ("p4") [] ("")] =
      .ok ⟨0, 0⟩ [] := by
  have h := claim_C8_amended demoEnv demoEnv ⟨30, false, false⟩
    [mkPod ("p1") [(lifetimeKey, ("1h"))] (""), mkPod ("p4") [] ("")]
    [mkPod ("p4") [] ("")] ⟨0, 0⟩
    (by decide) (by decide) (by decide) (by decide) (by decide) (by decide)
  exact h.trans (by decide)

/-- C9: a pod carrying the lifetime annotation whose value parses to zero
— which is also what Go's parser returns when parsing fails, and what the
code tests against — receives no TTL-path call: the TTL branch issues no
action and leaves `podsKilled` alone, incrementing only `podsTracking`;
yet the pod still counts toward the tracked gauge the namespace publishes,
as the single-pod namespace evaluation shows. -/
theorem claim_C9 (env : Env) (cfg : Config) (st : PodState) (p : Pod)
    (ns : String) (val : String)
    (hval : lookupKV lifetimeKey p.annotations = some val)
    (hparse : (env.parseDuration val).1 = 0)
    (hlist : env.podLists ns = .ok [p])
    (hcl : cleanupEligible cfg p = false) :
    ttlStep env cfg st p =
      ({ st with podsTracking := st.podsTracking + 1 }, []) ∧
    annotated p = true ∧
    reapNamespacePods env cfg ns = .ok 1 0 0 [] := by
  have haux : ∀ st' : PodState, ttlStep env cfg st' p =
      ({ st' with podsTracking := st'.podsTracking + 1 }, []) := by
    intro st'
    simp [ttlStep, hval, hparse]
  refine ⟨haux st, annotated_of_lookup_some p val hval, ?_⟩
  have hpp : processPod env cfg ⟨0, 0⟩ p = .ok ((⟨1, 0⟩ : PodState), []) := by
    simp only [processPod, haux,
      cleanupStep_not_eligible env cfg _ p hcl]
    rfl
  simp only [reapNamespacePods, hlist, processPods, hpp,
    ReapOutcome.withActs, List.append_nil]
  rfl

theorem claim_C9_witness :
    ttlStep envBadPod ⟨30, false, false⟩ ⟨0, 0⟩
      (mkPod ("pb") [(lifetimeKey, ("bad"))] ("")) =
      ((⟨1, 0⟩ : PodState), []) ∧
    annotated (mkPod ("pb") [(lifetimeKey, ("bad"))] ("")) = true ∧
    reapNamespacePods envBadPod ⟨30, false, false⟩ ("default") =
      .ok 1 0 0 [] := by
  have h := claim_C9 envBadPod ⟨30, false, false⟩ ⟨0, 0⟩
    (mkPod ("pb") [(lifetimeKey, ("bad"))] ("")) ("default") ("bad")
    (by decide) (by decide) rfl (by decide)
  exact ⟨h.1.trans (by decide), h.2.1, h.2.2⟩

/-- C10: the TTL budget gate and evicted-pod cleanup share the single
`podsKilled` counter of the namespace pass: (1) a successful cleanup
delete increments exactly the counter the TTL gate compares against
`maxReaperCount`; (2) with a cleanup-eligible pod e listed before a
qualifying pod q, q is reaped precisely when `podsKilled + 1` is still
under the budget, whereas with q alone the gate reads `podsKilled` — each
earlier cleanup delete costs one TTL reap still permitted; (3) a pod
satisfying both branches is counted twice, adding 2 to `podsKilled` in a
single iteration. -/
theorem claim_C10 (env : Env) (cfg : Config) (st : PodState) (e q b : Pod)
    (heAnn : lookupKV lifetimeKey e.annotations = none)
    (heEv : cleanupEligible cfg e = true)
    (heDel : env.deleteSucceeds e.podNamespace e.name = true)
    (hqQ : qualifies env q = true)
    (hqCl : cleanupEligible cfg q = false)
    (hqS : reapSucceeds env cfg q = true)
    (hbQ : qualifies env b = true)
    (hbEv : cleanupEligible cfg b = true)
    (hbS : reapSucceeds env cfg b = true)
    (hbDel : env.deleteSucceeds b.podNamespace b.name = true)
    (hbOpen : st.podsKilled < cfg.maxReaperCount) :
    (cleanupStep env cfg st e =
      .ok ({ st with podsKilled := st.podsKilled + 1 },
        [Action.cleanupDelete e.podNamespace e.name])) ∧
    (processPods env cfg st [e, q] =
      if st.podsKilled + 1 < cfg.maxReaperCount then
        .ok ⟨st.podsTracking + 1, st.podsKilled + 2⟩
          [Action.cleanupDelete e.podNamespace e.name, mkReapAct cfg q]
      else
        .ok ⟨st.podsTracking + 1, st.podsKilled + 1⟩
          [Action.cleanupDelete e.podNamespace e.name]) ∧
    (processPods env cfg st [q] =
      if st.podsKilled < cfg.maxReaperCount then
        .ok ⟨st.podsTracking + 1, st.podsKilled + 1⟩ [mkReapAct cfg q]
      else .ok ⟨st.podsTracking + 1, st.podsKilled⟩ []) ∧
    (processPod env cfg st b =
      .ok ((⟨st.podsTracking + 1, st.podsKilled + 2⟩ : PodState),
        [mkReapAct cfg b, Action.cleanupDelete b.podNamespace b.name])) := by
  have hstE : processPod env cfg st e =
      .ok ({ st with podsKilled := st.podsKilled + 1 },
        [Action.cleanupDelete e.podNamespace e.name]) := by
    simp only [processPod, ttlStep_of_lookup_none env cfg st e heAnn,
      cleanupStep_succeeds env cfg st e heEv heDel, List.nil_append]
  refine ⟨cleanupStep_succeeds env cfg st e heEv heDel, ?_, ?_, ?_⟩
  · by_cases hb2 : st.podsKilled + 1 < cfg.maxReaperCount
    · have hq := ttlStep_reap_success env cfg
        { st with podsKilled := st.podsKilled + 1 } q hqQ hb2 hqS
      have hppq : processPod env cfg
          { st with podsKilled := st.podsKilled + 1 } q =
          .ok ((⟨st.podsTracking + 1, st.podsKilled + 1 + 1⟩ : PodState),
            [mkReapAct cfg q]) := by
        simp only [processPod, hq,
          cleanupStep_not_eligible env cfg _ q hqCl, List.append_nil]
      rw [if_pos hb2]
      simp only [processPods, hstE, hppq, ReapOutcome.withActs,
        List.append_nil]
      simp only [ReapOutcome.ok.injEq, PodState.mk.injEq, true_and,
        and_true]
      exact ⟨by omega, by simp⟩
    · obtain ⟨val, hl⟩ := exists_lookup_of_qualifies env q hqQ
      have hq := ttlStep_budget_closed env cfg
        { st with podsKilled := st.podsKilled + 1 } q val hl hb2
      have hppq : processPod env cfg
          { st with podsKilled := st.podsKilled + 1 } q =
          .ok ((⟨st.podsTracking + 1, st.podsKilled + 1⟩ : PodState),
            []) := by
        simp only [processPod, hq,
          cleanupStep_not_eligible env cfg _ q hqCl, List.append_nil]
      rw [if_neg hb2]
      simp only [processPods, hstE, hppq, ReapOutcome.withActs,
        List.append_nil]
  · by_cases hb1 : st.podsKilled < cfg.maxReaperCount
    · have hq := ttlStep_reap_success env cfg st q hqQ hb1 hqS
      rw [if_pos hb1]
      simp only [processPods, processPod, hq,
        cleanupStep_not_eligible env cfg _ q hqCl, List.append_nil,
        ReapOutcome.withActs]
    · obtain ⟨val, hl⟩ := exists_lookup_of_qualifies env q hqQ
      have hq := ttlStep_budget_closed env cfg st q val hl hb1
      rw [if_neg hb1]
      simp only [processPods, processPod, hq,
        cleanupStep_not_eligible env cfg _ q hqCl, List.append_nil,
        ReapOutcome.withActs]
  · have hq := ttlStep_reap_success env cfg st b hbQ hbOpen hbS
    have hcs := cleanupStep_succeeds env cfg
      { st with podsTracking := st.podsTracking + 1,
                podsKilled := st.podsKilled + 1 } b hbEv hbDel
    simp only [processPod, hq, hcs]
    simp only [Except.ok.injEq, Prod.mk.injEq, PodState.mk.injEq,
      true_and, and_true]
    exact ⟨by omega, by simp⟩

theorem claim_C10_witness :
    cleanupStep demoEnv ⟨1, false, true⟩ ⟨0, 0⟩ (mkPod ("e1") [] ("Evicted")) =
      .ok ((⟨0, 1⟩ : PodState), [Action.cleanupDelete ("default") ("e1")]) ∧
    processPods demoEnv ⟨1, false, true⟩ ⟨0, 0⟩
      [mkPod ("e1") [] ("Evicted"),
       mkPod ("q1") [(lifetimeKey, ("1h"))] ("")] =
      .ok ⟨1, 1⟩ [Action.cleanupDelete ("default") ("e1")] ∧
    processPods demoEnv ⟨1, false, true⟩ ⟨0, 0⟩
      [mkPod ("q1") [(lifetimeKey, ("1h"))] ("")] =
      .ok ⟨1, 1⟩ [Action.ttlDelete ("default") ("q1")] ∧
    processPod demoEnv ⟨1, false, true⟩ ⟨0, 0⟩
      (mkPod ("b1") [(lifetimeKey, ("1h"))] ("Evicted")) =
      .ok ((⟨1, 2⟩ : PodState),
        [Action.ttlDelete ("default") ("b1"),
         Action.cleanupDelete ("default") ("b1")]) := by
  have h := claim_C10 demoEnv ⟨1, false, true⟩ ⟨0, 0⟩
    (mkPod ("e1") [] ("Evicted")) (mkPod ("q1") [(lifetimeKey, ("1h"))] (""))
    (mkPod ("b1") [(lifetimeKey, ("1h"))] ("Evicted"))
    (by decide) (by decide) (by decide) (by decide) (by decide) (by decide)
    (by decide) (by decide) (by decide) (by decide) (by decide)
  refine ⟨h.1.trans (by rfl), h.2.1.trans (by decide),
    h.2.2.1.trans (by decide), h.2.2.2.trans (by rfl)⟩

end PodReaper
